import Mathlib

/-!
# Verification of the mobilecoin command-line wallet against its specification

Shallow embedding of `src/mobilecoin/cli.py`. Python strings are modelled as
`List Char` (`PyStr`), Python's dynamic JSON values as the inductive `Json`,
and the fallible paths as `Except`/`Option`. Functions from
`mobilecoin/client.py` (which only appears through its import in `cli.py`)
are modelled from the spec and marked as such in their doc comments.
-/

namespace MCCli

/-- Python strings, modelled as lists of characters. -/
abbrev PyStr := List Char

/-- JSON values as produced by Python's `json.load` / held in parsed RPC
responses. Numbers are restricted to naturals, which is all the embedded
code paths carry (block indexes). -/
inductive Json where
  | str (s : PyStr)
  | num (n : ℕ)
  | obj (fields : List (PyStr × Json))

/-- The Python exceptions that the embedded paths of `cli.py` can raise or
propagate.  `invalidSeed` is NOT raised anywhere in the source; it is
modelled from the spec: the spec's §7 error taxonomy names an `InvalidSeed`
failure for the seed decoder, but the source `_load_import` defines no such
error and lets `open`/`json.load` exceptions propagate. The constructor
exists only so the spec's vocabulary can be stated and compared. -/
inductive PyErr where
  | valueError
  | lookupError
  | fileNotFound
  | jsonDecodeError
  | keyError
  | typeError
  | invalidSeed
  deriving DecidableEq

/-- An account record as returned by the wallet server
(`account['account_id']`, `account['name']`, `account['main_address']`,
`account['first_block_index']` are the fields `cli.py` reads).
`first_block_index` is kept as a `Json` value since `cli.py` never
inspects it, only copies it. -/
structure Account where
  account_id : PyStr
  name : PyStr
  main_address : PyStr
  first_block_index : Json

/-- A balance snapshot as returned by `get_balance_for_account`
(the fields `cli.py` reads: `unspent_pmob`, `account_block_index`,
`network_block_index`, `local_block_index`, `is_synced`). -/
structure Balance where
  unspent_pmob : ℕ
  account_block_index : ℕ
  network_block_index : ℕ
  local_block_index : ℕ
  is_synced : Bool
  deriving DecidableEq

/-- Exported account secrets as returned by `export_account_secrets`
(`secrets['entropy']` is a hex string, `secrets['account_key']` is opaque
key material). -/
structure Secrets where
  entropy : PyStr
  account_key : Json

/-! ## Hexadecimal codec: Python's `bytes.fromhex` and `bytes.hex` -/

/-- Value of a single hex digit, `none` for non-hex characters. -/
def hexVal (c : Char) : Option ℕ :=
  if '0' ≤ c ∧ c ≤ '9' then some (c.toNat - '0'.toNat)
  else if 'a' ≤ c ∧ c ≤ 'f' then some (c.toNat - 'a'.toNat + 10)
  else if 'A' ≤ c ∧ c ≤ 'F' then some (c.toNat - 'A'.toNat + 10)
  else none

/-- Pair up hex digits into byte values, two digits per byte, as
`bytes.fromhex` does once the string is validated. -/
def hexPairs : List Char → List ℕ
  | c1 :: c2 :: rest => ((hexVal c1).getD 0 * 16 + (hexVal c2).getD 0) :: hexPairs rest
  | _ => []

/-- Python's `bytes.fromhex`: ASCII spaces are skipped; the remaining
characters must all be hex digits and of even count, else `ValueError`
(modelled as `none`). Bytes are 0–255 naturals. -/
def bytesFromHex (s : PyStr) : Option (List ℕ) :=
  if ((s.filter fun c => !(c == ' ')).all fun c => (hexVal c).isSome)
      && ((s.filter fun c => !(c == ' ')).length % 2 == 0) then
    some (hexPairs (s.filter fun c => !(c == ' ')))
  else
    none

/-- Lowercase hex digit character for a value below 16, as `bytes.hex`
produces. -/
def hexDigitChar (n : ℕ) : Char :=
  if n < 10 then Char.ofNat ('0'.toNat + n) else Char.ofNat ('a'.toNat + n - 10)

/-- Python's `bytes.hex`: two lowercase hex digits per byte. -/
def bytesToHex (bs : List ℕ) : PyStr :=
  (bs.map fun b => [hexDigitChar (b / 16 % 16), hexDigitChar (b % 16)]).flatten

/-! ## Base-`B` digit strings (used by the BIP39 mnemonic model) -/

/-- Read a most-significant-first digit string in base `B` as a natural. -/
def digitsToNat (B : ℕ) (ds : List ℕ) : ℕ :=
  ds.foldl (fun a d => a * B + d) 0

/-- The `k` least significant base-`B` digits of `N`, most significant
first. -/
def natToDigits (B : ℕ) : ℕ → ℕ → List ℕ
  | 0, _ => []
  | k + 1, N => natToDigits B k (N / B) ++ [N % B]

/-! ## Word splitting and joining: Python's `str.split(" ")` and `" ".join` -/

/-- Python's `s.split(" ")`: split on every single space, keeping empty
pieces; the empty string splits to `[""]`. -/
def splitOnSpace : List Char → List (List Char)
  | [] => [[]]
  | c :: rest =>
    if c = ' ' then [] :: splitOnSpace rest
    else
      match splitOnSpace rest with
      | w :: ws => (c :: w) :: ws
      | [] => [[c]]

/-- Python's `" ".join(words)`. -/
def joinSpace : List (List Char) → List Char
  | [] => []
  | [w] => w
  | w :: ws => w ++ ' ' :: joinSpace ws

/-- First-failure-propagating map, as the mnemonic library's word lookup
loop behaves. -/
def optMapM (f : α → Option β) : List α → Option (List β)
  | [] => some []
  | a :: t =>
    match f a, optMapM f t with
    | some b, some bs => some (b :: bs)
    | _, _ => none

/-! ## BIP39 mnemonic codec (`Mnemonic('english')` of the `mnemonic` library)

The library is an external dependency; its algorithm is embedded
structurally: entropy of `L` bytes carries a checksum of `L / 4` bits
(for the valid sizes, `8·L + L/4` is a multiple of 11) and the resulting
bit string is written as 11-bit words of a fixed 2048-entry wordlist.
The checksum function itself (the leading bits of SHA-256) is kept as a
parameter `cs`; every theorem below holds for an arbitrary checksum
function, so in particular for SHA-256. The wordlist is likewise a
parameter (`wl` index→word, `wi` word→index), constrained in the theorem
hypotheses by the facts true of the fixed English wordlist. -/

/-- Model of `Mnemonic('english').to_mnemonic(entropy)`: append the
checksum bits, cut into 11-bit indices, replace by words, join with
spaces. -/
def toMnemonic (cs : List ℕ → ℕ) (wl : ℕ → PyStr) (e : List ℕ) : PyStr :=
  let c := e.length / 4
  let N := digitsToNat 256 e * 2 ^ c + cs e % 2 ^ c
  let k := (8 * e.length + c) / 11
  joinSpace ((natToDigits 2048 k N).map wl)

/-- Model of `Mnemonic('english').to_entropy(words)`: split on spaces,
require a valid word count, look every word up (`none` models the
propagated `ValueError`/`LookupError`), reassemble the bit string, split
off and verify the checksum. -/
def mnemonicToEntropy (cs : List ℕ → ℕ) (wi : PyStr → Option ℕ) (s : PyStr) :
    Option (List ℕ) :=
  let words := splitOnSpace s
  if ([12, 15, 18, 21, 24] : List ℕ).contains words.length then
    match optMapM wi words with
    | none => none
    | some idx =>
      let k := words.length
      let c := k / 3
      let N := digitsToNat 2048 idx
      let e := natToDigits 256 (k * 4 / 3) (N / 2 ^ c)
      if cs e % 2 ^ c == N % 2 ^ c then some e else none
  else none

/-! ## The seed decoder `_load_import` -/

/-- What the filesystem holds at a path: nothing (`open` raises
`FileNotFoundError`), a file that `json.load` cannot parse, or a parsed
JSON value. -/
inductive FileResult where
  | missing
  | unparsable
  | parsed (j : Json)

/-- A snapshot of the filesystem, path → content. -/
abbrev FileSys := PyStr → FileResult

/-- Python dict lookup on a parsed JSON object, `none` for a missing key. -/
def jsonLookup (fields : List (PyStr × Json)) (k : PyStr) : Option Json :=
  (fields.find? fun p => p.1 == k).map (·.2)

def rootEntropyKey : PyStr := "root_entropy".toList

def firstBlockKey : PyStr := "first_block_index".toList

/-- The terminal recovery-file attempt of `_load_import` (cli.py lines
317–320): open the path, `json.load` it, and index `root_entropy` and
`first_block_index`. There is no `try` around it: a missing file, a parse
failure or a missing key propagates the corresponding Python exception. -/
def loadImportFile (fs : FileSys) (seed : PyStr) : Except PyErr (Json × Option Json) :=
  match fs seed with
  | .missing => .error .fileNotFound
  | .unparsable => .error .jsonDecodeError
  | .parsed (.obj fields) =>
    match jsonLookup fields rootEntropyKey, jsonLookup fields firstBlockKey with
    | some v, some w => .ok (v, some w)
    | _, _ => .error .keyError
  | .parsed _ => .error .typeError

/-- The mnemonic attempt of `_load_import` (cli.py lines 310–315):
`ValueError`/`LookupError` from `to_entropy` falls through to the file
attempt; success returns the entropy hex with no starting block. -/
def loadImportRest (cs : List ℕ → ℕ) (wi : PyStr → Option ℕ) (fs : FileSys)
    (seed : PyStr) : Except PyErr (Json × Option Json) :=
  match mnemonicToEntropy cs wi seed with
  | some e => .ok (.str (bytesToHex e), none)
  | none => loadImportFile fs seed

/-- The seed decoder `_load_import` (cli.py lines 300–320): first try the string as
hexadecimal root entropy — accepted only when exactly 32 bytes decode, in
which case the normalized lowercase hex (`b.hex()`) is returned with no
starting block; a `ValueError` or a wrong length falls through to the
mnemonic attempt, and that in turn to the recovery-file attempt. -/
def loadImport (cs : List ℕ → ℕ) (wi : PyStr → Option ℕ) (fs : FileSys)
    (seed : PyStr) : Except PyErr (Json × Option Json) :=
  match bytesFromHex seed with
  | some b =>
    if b.length = 32 then .ok (.str (bytesToHex b), none)
    else loadImportRest cs wi fs seed
  | none => loadImportRest cs wi fs seed

/-! ## The export path `_save_export` and `export` -/

def seedPhraseKey : PyStr := "seed_phrase".toList

def accountIdKey : PyStr := "account_id".toList

def accountNameKey : PyStr := "account_name".toList

def accountKeyKey : PyStr := "account_key".toList

/-- The file name chosen by `export` (cli.py line 198):
`'mobilecoin_seed_phrase_{}.json'.format(account_id[:16])`. -/
def exportFilename (account_id : PyStr) : PyStr :=
  "mobilecoin_seed_phrase_".toList ++ account_id.take 16 ++ ".json".toList

/-- The record built and written by `_save_export` (cli.py lines 323–337):
`bytes.fromhex` on the exported entropy (a `ValueError` would propagate),
then a JSON object with exactly the six listed fields. -/
def saveExport (cs : List ℕ → ℕ) (wl : ℕ → PyStr) (account : Account)
    (secrets : Secrets) : Except PyErr (List (PyStr × Json)) :=
  match bytesFromHex secrets.entropy with
  | none => .error .valueError
  | some b =>
    .ok [(seedPhraseKey, .str (toMnemonic cs wl b)),
         (rootEntropyKey, .str secrets.entropy),
         (accountIdKey, .str account.account_id),
         (accountNameKey, .str account.name),
         (accountKeyKey, secrets.account_key),
         (firstBlockKey, account.first_block_index)]

/-! ## Amount conversion -/

/-- Modelled from the spec: `pmob2mob` lives in `mobilecoin/client.py`,
which is absent from `src/`; the spec (§4.2, glossary) fixes it as the
exact conversion smallest-unit → display unit at a scale of 10^12. -/
def pmob2mob (n : ℕ) : ℚ := (n : ℚ) / 10 ^ 12

/-- Modelled from the spec: `mob2pmob` lives in `mobilecoin/client.py`,
which is absent from `src/`; the spec (§4.2) fixes it as the exact
conversion display unit → integer smallest unit at a scale of 10^12,
quantizing to the nearest smallest unit. -/
def mob2pmob (x : ℚ) : ℤ := round (x * 10 ^ 12)

/-- Round a non-negative fraction `a / b` to a natural, halves to even,
as IEEE-754 round-to-nearest-even does at integer granularity. -/
def halfEvenDivN (a b : ℕ) : ℕ :=
  let q := a / b
  let r := a % b
  if 2 * r < b then q
  else if b < 2 * r then q + 1
  else if q % 2 = 0 then q else q + 1

/-- Scale the fraction `a / b` into `[2^52, 2^53)` by doubling the
numerator (`up` counts) or the denominator (`down` counts); fuel-driven
so that the definition is structural. -/
def binScaleN : ℕ → ℕ → ℕ → ℕ → ℕ → ℕ × ℕ × ℕ × ℕ
  | 0, a, b, up, down => (a, b, up, down)
  | fuel + 1, a, b, up, down =>
    if a < 2 ^ 52 * b then binScaleN fuel (a * 2) b (up + 1) down
    else if 2 ^ 53 * b ≤ a then binScaleN fuel a (b * 2) up (down + 1)
    else (a, b, up, down)

/-- Python's `float(s)` on the decimal string denoting `a / b` (`b ≠ 0`),
for values in the normal range of IEEE-754 binary64: the nearest double,
with a 53-bit significand, halves to even. This models the
`type=float` conversion that argparse applies to the `send` amount
(cli.py line 81); `Decimal(amount)` (line 252) then converts that double
exactly, so the value reaching the client is exactly this rational. -/
def pyFloatFrac (a b : ℕ) : ℚ :=
  if a = 0 ∨ b = 0 then 0
  else
    match binScaleN 4400 a b 0 0 with
    | (a', b', up, down) => ((halfEvenDivN a' b' : ℚ)) * 2 ^ down / 2 ^ up

/-- The amount that reaches `Decimal(amount)` in `send` when the user
types the decimal `a / b`: argparse has already parsed it with `float`
(cli.py line 81), and `Decimal` of a float is exact (line 252). -/
def sendParsedAmount (a b : ℕ) : ℚ := pyFloatFrac a b

/-! ## Interactive confirmation and the confirmed commands -/

/-- RPC calls issued by the embedded command bodies (the mutating calls
the claims are about). -/
inductive RpcCall where
  | exportAccountSecrets (account_id : PyStr)
  | removeAccount (account_id : PyStr)
  | sendTransaction (account_id : PyStr) (amount : ℚ) (to_address : PyStr)
  deriving DecidableEq

/-- Outcome of a command body: completed, cancelled at the prompt, or
aborted by a propagated Python exception. -/
inductive Outcome where
  | ok
  | cancelled
  | error (e : PyErr)
  deriving DecidableEq

/-- The function `confirm` (cli.py lines 277–279): the answer, lowercased,
must be `y` or `yes`. -/
def confirm (answer : PyStr) : Bool :=
  (answer.map Char.toLower == ['y']) || (answer.map Char.toLower == ['y', 'e', 's'])

/-- The body of `export` (cli.py lines 182–200) after account resolution
and the balance fetch: prompt; if declined, print `Cancelled.` and return;
otherwise call `export_account_secrets` and write the file. The trace
lists the mutating RPC calls issued. -/
def exportCmd (account : Account) (answer : PyStr) : List RpcCall × Outcome :=
  if confirm answer = true then
    ([.exportAccountSecrets account.account_id], .ok)
  else
    ([], .cancelled)

/-- The body of `delete` (cli.py lines 202–222) after account resolution
and the balance fetch: when the balance is synced and `pmob2mob` of the
unspent amount is zero, no confirmation is asked and the account is
deleted at once; otherwise the user is prompted, a decline prints
`Cancelled.` and returns, and a confirmation deletes. -/
def deleteCmd (account : Account) (balance : Balance) (answer : PyStr) :
    List RpcCall × Outcome :=
  if balance.is_synced = true ∧ pmob2mob balance.unspent_pmob = 0 then
    ([.removeAccount account.account_id], .ok)
  else if confirm answer = true then
    ([.removeAccount account.account_id], .ok)
  else
    ([], .cancelled)

/-- Python's `str.join` takes exactly one iterable argument. The `send`
body (cli.py lines 254–257) calls `'\n'.join(line1, line2)` with two
arguments — its two message format lines `'Sending {:.4f} MOB from
account {} {}'` and `'to address {}.'` — so the call raises `TypeError`
before producing any string. -/
def strJoinTwoArgs (_sep _a _b : PyStr) : Except PyErr PyStr := .error .typeError

/-- The body of `send` (cli.py lines 249–268) after account resolution
and the `Decimal(amount)` conversion: printing the confirmation message
joins its two format lines with a two-argument `'\n'.join` (lines
254–257), which raises `TypeError` unconditionally, so the confirmation
prompt (line 263) and the `send_transaction` call (line 267) below it
are never reached, whatever the answer would have been. The braces of
the source format lines are elided from the modelled strings; the join
never inspects them. -/
def sendCmd (account : Account) (amount : ℚ) (to_address : PyStr) (answer : PyStr) :
    List RpcCall × Outcome :=
  match strJoinTwoArgs ['\n'] "Sending MOB from account".toList "to address.".toList with
  | .error e => ([], .error e)
  | .ok _ =>
    if confirm answer = true then
      ([.sendTransaction account.account_id amount to_address], .ok)
    else
      ([], .cancelled)

/-! ## The import command -/

/-- The block-argument logic of `import_` (cli.py lines 169–173): decode
the seed; if no explicit `--block` was given and the decode produced a
starting block, use the decoded one; the explicit block always wins when
present. Returns the entropy and the block argument that reach
`client.import_account`. -/
def importCmd (cs : List ℕ → ℕ) (wi : PyStr → Option ℕ) (fs : FileSys)
    (seed : PyStr) (explicitBlock : Option Json) : Except PyErr (Json × Option Json) :=
  match loadImport cs wi fs seed with
  | .error e => .error e
  | .ok (entropy, block) =>
    if explicitBlock.isNone && block.isSome then .ok (entropy, block)
    else .ok (entropy, explicitBlock)

/-! ## Account resolution `_load_account_prefix` -/

/-- Bool test that `p` is a leading substring of `s`
(Python's `s.startswith(p)`). -/
def startsWithPy : PyStr → PyStr → Bool
  | [], _ => true
  | _ :: _, [] => false
  | c :: p, d :: s => c == d && startsWithPy p s

/-- Result of `_load_account_prefix`: the two `exit(1)` paths print
distinct diagnostics — `Could not find account starting with ...` and
`Multiple matching matching ids: ...` (the latter listing every match) —
and are modelled as distinct constructors carrying what they report. -/
inductive ResolveResult where
  | found (account : Account)
  | notFound
  | ambiguous (matchIds : List PyStr)

/-- The resolver `_load_account_prefix` (cli.py lines 84–98): filter the
known account ids by the given leading substring; zero matches and two or
more matches are the two distinct failure exits, a unique match returns
the account stored under it. Accounts are the
`get_all_accounts` response, an insertion-ordered dict modelled as an
association list. -/
def resolveAccount (accounts : List (PyStr × Account)) (pre : PyStr) :
    ResolveResult :=
  let matching_ids := (accounts.map Prod.fst).filter (fun a_id => startsWithPy pre a_id)
  match matching_ids with
  | [] => .notFound
  | [a_id] =>
    match accounts.find? (fun p => p.1 == a_id) with
    | some p => .found p.2
    | none => .notFound
  | _ => .ambiguous matching_ids

/-! ## Balance display: `_print_account` and `list` -/

/-- The values `_print_account` interpolates into its output. -/
structure AccountDisplay where
  id_start : PyStr
  name : PyStr
  address : PyStr
  amount : ℚ
  synced_blocks : ℕ
  total_blocks : ℕ
  offline : Bool

/-- The function `_print_account` (cli.py lines 282–297): the total block
count shown is the network block index, except that a network index of
exactly zero flags the account offline and substitutes the local block
index. -/
def printAccount (account : Account) (balance : Balance) : AccountDisplay :=
  let total_blocks := balance.network_block_index
  let offline := total_blocks == 0
  let total_blocks := if offline then balance.local_block_index else total_blocks
  { id_start := account.account_id.take 6
    name := account.name
    address := account.main_address
    amount := pmob2mob balance.unspent_pmob
    synced_blocks := balance.account_block_index
    total_blocks := total_blocks
    offline := offline }

/-- The per-account total computed inside `list` (cli.py lines 236–240),
with the same zero-network substitution. -/
def listTotalBlocks (balance : Balance) : ℕ :=
  let total_blocks := balance.network_block_index
  let offline := total_blocks == 0
  if offline then balance.local_block_index else total_blocks

/-- The `list` command (cli.py lines 224–244): fetch each balance and
display each account via `_print_account`. -/
def listCmd (accounts : List (PyStr × Account)) (balanceOf : PyStr → Balance) :
    List AccountDisplay :=
  accounts.map fun p => printAccount p.2 (balanceOf p.1)

/-! ## Sync polling and the transaction flow -/

/-- Modelled from the spec: `Client.poll_balance_until_synced` lives in
`mobilecoin/client.py`, which is absent from `src/`; the spec (§4.4)
fixes its target mode: repeatedly fetch the balance (`fetch n` is the
`n`-th snapshot) and succeed only once the account-local synced index has
reached the target, failing with `SyncTimeout` (modelled as `none`) when
the attempt bound runs out. -/
def waitForSync (fetch : ℕ → Balance) (target : ℕ) : ℕ → ℕ → Option Balance
  | _, 0 => none
  | attempt, fuel + 1 =>
    if target ≤ (fetch attempt).account_block_index then some (fetch attempt)
    else waitForSync fetch target (attempt + 1) fuel

/-- Modelled from the spec: `Client.send_transaction` (the build, submit
and confirm flow) lives in `mobilecoin/client.py`, which is absent from
`src/`; the spec (§4.5) fixes it: after the submit returns the submitted
block index, wait for the account to sync to that index plus one before
reporting success. `submitted` is the block index the submit call
returned; the result carries it with the balance observed at success. -/
def sendAndConfirm (submitted : ℕ) (fetch : ℕ → Balance) (fuel : ℕ) :
    Option (ℕ × Balance) :=
  match waitForSync fetch (submitted + 1) 0 fuel with
  | some bal => some (submitted, bal)
  | none => none

/-! ## Supporting lemmas: base-`B` digit strings -/

theorem digitsToNat_append (B : ℕ) (ds : List ℕ) (d : ℕ) :
    digitsToNat B (ds ++ [d]) = digitsToNat B ds * B + d := by
  simp [digitsToNat, List.foldl_append]

theorem natToDigits_length (B k N : ℕ) : (natToDigits B k N).length = k := by
  induction k generalizing N with
  | zero => simp [natToDigits]
  | succ k ih => simp [natToDigits, ih]

theorem natToDigits_lt (B k N : ℕ) (hB : 0 < B) :
    ∀ d ∈ natToDigits B k N, d < B := by
  induction k generalizing N with
  | zero => simp [natToDigits]
  | succ k ih =>
    intro d hd
    rw [natToDigits, List.mem_append] at hd
    rcases hd with hd | hd
    · exact ih _ d hd
    · simp at hd
      exact hd ▸ Nat.mod_lt _ hB

theorem digitsToNat_natToDigits (B k N : ℕ) :
    digitsToNat B (natToDigits B k N) = N % B ^ k := by
  induction k generalizing N with
  | zero => simp [natToDigits, digitsToNat, Nat.mod_one]
  | succ k ih =>
    rw [natToDigits, digitsToNat_append, ih, pow_succ', Nat.mod_mul]
    rw [Nat.mul_comm, Nat.add_comm]

theorem natToDigits_digitsToNat (B : ℕ) (hB : 0 < B) (ds : List ℕ)
    (h : ∀ d ∈ ds, d < B) :
    natToDigits B ds.length (digitsToNat B ds) = ds := by
  induction ds using List.reverseRecOn with
  | nil => simp [natToDigits, digitsToNat]
  | append_singleton ds d ih =>
    have hd : d < B := h d (by simp)
    have hdiv : (digitsToNat B ds * B + d) / B = digitsToNat B ds := by
      rw [Nat.mul_comm, Nat.mul_add_div hB, Nat.div_eq_of_lt hd, Nat.add_zero]
    have hmod : (digitsToNat B ds * B + d) % B = d := by
      rw [Nat.mul_comm, Nat.mul_add_mod, Nat.mod_eq_of_lt hd]
    rw [digitsToNat_append, List.length_append, List.length_singleton,
      natToDigits, hdiv, hmod, ih (fun x hx => h x (by simp [hx]))]

theorem digitsToNat_lt (B : ℕ) (ds : List ℕ) (h : ∀ d ∈ ds, d < B) :
    digitsToNat B ds < B ^ ds.length := by
  induction ds using List.reverseRecOn with
  | nil => simp [digitsToNat]
  | append_singleton ds d ih =>
    have hd : d < B := h d (by simp)
    have hds : digitsToNat B ds < B ^ ds.length :=
      ih fun x hx => h x (by simp [hx])
    rw [digitsToNat_append, List.length_append, List.length_singleton, pow_succ]
    calc digitsToNat B ds * B + d < digitsToNat B ds * B + B :=
        Nat.add_lt_add_left hd _
    _ = (digitsToNat B ds + 1) * B := by ring
    _ ≤ B ^ ds.length * B := Nat.mul_le_mul_right B hds

/-! ## Supporting lemmas: space splitting and joining -/

theorem splitOnSpace_no_space (w : List Char) (h : ' ' ∉ w) :
    splitOnSpace w = [w] := by
  induction w with
  | nil => rfl
  | cons c rest ih =>
    have hc : ¬(c = ' ') := fun e => h (by simp [e])
    have hr : ' ' ∉ rest := fun m => h (List.mem_cons_of_mem _ m)
    rw [splitOnSpace, if_neg hc, ih hr]

theorem splitOnSpace_append (w t : List Char) (h : ' ' ∉ w) :
    splitOnSpace (w ++ ' ' :: t) = w :: splitOnSpace t := by
  induction w with
  | nil => simp [splitOnSpace]
  | cons c rest ih =>
    have hc : ¬(c = ' ') := fun e => h (by simp [e])
    have hr : ' ' ∉ rest := fun m => h (List.mem_cons_of_mem _ m)
    rw [List.cons_append, splitOnSpace, if_neg hc, ih hr]

theorem splitOnSpace_joinSpace (ws : List (List Char)) (hne : ws ≠ [])
    (h : ∀ w ∈ ws, ' ' ∉ w) : splitOnSpace (joinSpace ws) = ws := by
  induction ws with
  | nil => exact absurd rfl hne
  | cons w ws ih =>
    cases ws with
    | nil => exact splitOnSpace_no_space w (h w (by simp))
    | cons w2 ws2 =>
      rw [show joinSpace (w :: w2 :: ws2) = w ++ ' ' :: joinSpace (w2 :: ws2) from rfl]
      rw [splitOnSpace_append _ _ (h w (by simp))]
      rw [ih (by simp) (fun x hx => h x (List.mem_cons_of_mem _ hx))]

theorem filter_no_space (w : List Char) (h : ' ' ∉ w) :
    w.filter (fun c => !(c == ' ')) = w := by
  rw [List.filter_eq_self]
  intro c hc
  simp only [Bool.not_eq_eq_eq_not, Bool.not_true, beq_eq_false_iff_ne, ne_eq]
  exact fun e => h (e ▸ hc)

theorem filter_joinSpace (ws : List (List Char)) (h : ∀ w ∈ ws, ' ' ∉ w) :
    (joinSpace ws).filter (fun c => !(c == ' ')) = ws.flatten := by
  induction ws with
  | nil => rfl
  | cons w ws ih =>
    cases ws with
    | nil => simp [joinSpace, filter_no_space w (h w (by simp))]
    | cons w2 ws2 =>
      rw [show joinSpace (w :: w2 :: ws2) = w ++ ' ' :: joinSpace (w2 :: ws2) from rfl]
      rw [List.filter_append, filter_no_space w (h w (by simp))]
      rw [show (' ' :: joinSpace (w2 :: ws2)).filter (fun c => !(c == ' '))
            = (joinSpace (w2 :: ws2)).filter (fun c => !(c == ' ')) from by simp]
      rw [ih (fun x hx => h x (List.mem_cons_of_mem _ hx))]
      rfl

theorem flatten_length_ge (ws : List (List Char)) (h : ∀ w ∈ ws, 3 ≤ w.length) :
    3 * ws.length ≤ ws.flatten.length := by
  induction ws with
  | nil => simp
  | cons w ws ih =>
    have h1 : 3 ≤ w.length := h w (by simp)
    have h2 := ih fun x hx => h x (List.mem_cons_of_mem _ hx)
    simp only [List.flatten_cons, List.length_append, List.length_cons]
    omega

theorem optMapM_map_of_inv (wi : PyStr → Option ℕ) (wl : ℕ → PyStr)
    (idx : List ℕ) (h : ∀ i ∈ idx, wi (wl i) = some i) :
    optMapM wi (idx.map wl) = some idx := by
  induction idx with
  | nil => rfl
  | cons i t ih =>
    rw [List.map_cons, optMapM, h i (by simp),
      ih fun j hj => h j (List.mem_cons_of_mem _ hj)]

/-! ## Supporting lemmas: the hex codec -/

theorem hexPairs_length : ∀ l : List Char, (hexPairs l).length = l.length / 2
  | [] => by simp [hexPairs]
  | [c] => by simp [hexPairs]
  | c1 :: c2 :: rest => by
    rw [hexPairs, List.length_cons, hexPairs_length rest]
    simp only [List.length_cons]
    omega

theorem hexVal_space : hexVal ' ' = none := by decide

theorem bytesFromHex_of_all_hex (s : PyStr) (h : ∀ c ∈ s, (hexVal c).isSome)
    (he : s.length % 2 = 0) : bytesFromHex s = some (hexPairs s) := by
  have hf : s.filter (fun c => !(c == ' ')) = s := by
    apply filter_no_space
    intro hm
    have := h ' ' hm
    rw [hexVal_space] at this
    exact absurd this (by simp)
  rw [bytesFromHex, hf, if_pos]
  rw [Bool.and_eq_true]
  constructor
  · rw [List.all_eq_true]
    exact h
  · simp [he]

theorem bytesFromHex_none_of_bad (s : PyStr) (c : Char) (hc : c ∈ s)
    (hhex : hexVal c = none) (hsp : ¬(c = ' ')) : bytesFromHex s = none := by
  rw [bytesFromHex, if_neg]
  rw [Bool.and_eq_true]
  rintro ⟨hall, -⟩
  rw [List.all_eq_true] at hall
  have : c ∈ s.filter (fun c => !(c == ' ')) := by
    rw [List.mem_filter]
    exact ⟨hc, by simp [hsp]⟩
  have := hall c this
  rw [hhex] at this
  exact absurd this (by simp)

theorem bytesFromHex_some (s : PyStr) (b : List ℕ)
    (h : bytesFromHex s = some b) :
    b = hexPairs (s.filter (fun c => !(c == ' '))) := by
  rw [bytesFromHex] at h
  split at h
  · exact (Option.some_inj.mp h).symm
  · exact absurd h (by simp)

/-! ## Supporting lemmas: the seed decoder -/

theorem loadImport_hex_fallthrough (cs : List ℕ → ℕ) (wi : PyStr → Option ℕ)
    (fs : FileSys) (seed : PyStr)
    (h : ∀ b, bytesFromHex seed = some b → b.length ≠ 32) :
    loadImport cs wi fs seed = loadImportRest cs wi fs seed := by
  rw [loadImport]
  cases hb : bytesFromHex seed with
  | none => rfl
  | some b => simp only [if_neg (h b hb)]

theorem loadImportFile_error_shape (fs : FileSys) (seed : PyStr) (e : PyErr)
    (h : loadImportFile fs seed = .error e) :
    e = .fileNotFound ∨ e = .jsonDecodeError ∨ e = .keyError ∨ e = .typeError := by
  rw [loadImportFile] at h
  split at h
  · exact .inl (Except.error.inj h).symm
  · exact .inr (.inl (Except.error.inj h).symm)
  · split at h
    · exact absurd h (by simp)
    · exact .inr (.inr (.inl (Except.error.inj h).symm))
  · exact .inr (.inr (.inr (Except.error.inj h).symm))

/-! ## Supporting lemmas: amounts -/

theorem pmob2mob_zero : pmob2mob 0 = 0 := by
  simp [pmob2mob]

theorem pmob2mob_eq_zero_iff (n : ℕ) : pmob2mob n = 0 ↔ n = 0 := by
  rw [pmob2mob, div_eq_zero_iff]
  norm_num

/-!
## Claim C4 — hex precedence in the seed decoder
-/

/-- **C4.** Every string of 64 hex characters decodes as the hex form:
`_load_import` returns the 32 decoded bytes (as their normalized lowercase
hex) with no starting block, whatever the mnemonic wordlist (`wi`) or the
filesystem (`fs`) would have said — the later interpretations are never
attempted, which the quantification over `wi` and `fs` captures. And a
valid-hex string of any other decoded length falls through, without an
error, to the mnemonic and recovery-file attempts. -/
theorem C4_hex_precedence :
    (∀ (cs : List ℕ → ℕ) (wi : PyStr → Option ℕ) (fs : FileSys) (seed : PyStr),
      seed.length = 64 → (∀ c ∈ seed, (hexVal c).isSome) →
      loadImport cs wi fs seed = .ok (.str (bytesToHex (hexPairs seed)), none)) ∧
    (∀ (cs : List ℕ → ℕ) (wi : PyStr → Option ℕ) (fs : FileSys) (seed : PyStr)
      (b : List ℕ), bytesFromHex seed = some b → b.length ≠ 32 →
      loadImport cs wi fs seed = loadImportRest cs wi fs seed) := by
  constructor
  · intro cs wi fs seed hlen hhex
    have hsome : bytesFromHex seed = some (hexPairs seed) :=
      bytesFromHex_of_all_hex seed hhex (by omega)
    have hlen32 : (hexPairs seed).length = 32 := by
      rw [hexPairs_length, hlen]
    rw [loadImport, hsome]
    simp only [if_pos hlen32]
  · intro cs wi fs seed b hb hne
    exact loadImport_hex_fallthrough cs wi fs seed fun b' hb' => by
      rw [hb] at hb'
      exact (Option.some_inj.mp hb') ▸ hne

/-- Witness for C4 at concrete inputs: the 64-character hex string
`aaa…a` is decoded as 32 bytes of `0xaa` by the hex branch, and the
2-character hex string `ab` falls through to the later attempts. -/
theorem C4_hex_precedence_witness :
    ((List.replicate 64 'a').length = 64 ∧
      loadImport (fun _ => 0) (fun _ => none) (fun _ => .missing)
          (List.replicate 64 'a')
        = .ok (.str (bytesToHex (hexPairs (List.replicate 64 'a'))), none)) ∧
    (bytesFromHex ['a', 'b'] = some [171] ∧
      loadImport (fun _ => 0) (fun _ => none) (fun _ => .missing) ['a', 'b']
        = loadImportRest (fun _ => 0) (fun _ => none) (fun _ => .missing) ['a', 'b']) :=
  ⟨⟨by decide,
    C4_hex_precedence.1 (fun _ => 0) (fun _ => none) (fun _ => .missing)
      (List.replicate 64 'a') (by decide) (by decide)⟩,
   ⟨by decide,
    C4_hex_precedence.2 (fun _ => 0) (fun _ => none) (fun _ => .missing)
      ['a', 'b'] [171] (by decide) (by decide)⟩⟩

/-!
## Claim C5 — what the decoder does when every form fails
-/

/-- **C5 counterexample.** The claim says an input that is not hex, not a
mnemonic and not a recovery file fails with the named error `InvalidSeed`.
On the concrete input `zzz` (not hex, a single word so never a valid
mnemonic under any wordlist, and no file of that name), `_load_import`
instead propagates the bare built-in exception of the failed `open`
(`FileNotFoundError`), which is not the spec's named `InvalidSeed`
failure. -/
theorem C5_invalid_seed_counterexample :
    loadImport (fun _ => 0) (fun _ => none) (fun _ => .missing) ['z', 'z', 'z']
        = .error .fileNotFound ∧
      PyErr.fileNotFound ≠ PyErr.invalidSeed := by
  constructor
  · rfl
  · decide

/-- **C5 as amended.** For every input that is not valid 32-byte hex and
not a checksum-valid mnemonic, the decoder's recovery-file attempt is
terminal — the result is exactly that of the file attempt, with no
further fallback — and a missing or unparsable file propagates the
corresponding built-in exception (`FileNotFoundError`, JSON decode
error); the failure is never the spec's named `InvalidSeed`, which the
source does not define. -/
theorem C5_terminal_file_attempt (cs : List ℕ → ℕ) (wi : PyStr → Option ℕ)
    (fs : FileSys) (seed : PyStr)
    (h1 : ∀ b, bytesFromHex seed = some b → b.length ≠ 32)
    (h2 : mnemonicToEntropy cs wi seed = none) :
    loadImport cs wi fs seed = loadImportFile fs seed ∧
    (fs seed = .missing → loadImport cs wi fs seed = .error .fileNotFound) ∧
    (fs seed = .unparsable → loadImport cs wi fs seed = .error .jsonDecodeError) ∧
    (∀ e, loadImport cs wi fs seed = .error e → e ≠ .invalidSeed) := by
  have hfile : loadImport cs wi fs seed = loadImportFile fs seed := by
    rw [loadImport_hex_fallthrough cs wi fs seed h1, loadImportRest, h2]
  refine ⟨hfile, ?_, ?_, ?_⟩
  · intro hm
    rw [hfile, loadImportFile, hm]
  · intro hm
    rw [hfile, loadImportFile, hm]
  · intro e he
    rw [hfile] at he
    rcases loadImportFile_error_shape fs seed e he with h | h | h | h <;>
      simp [h]

/-- Witness for C5 as amended, at the input `zzz` with an empty
filesystem. -/
theorem C5_terminal_file_attempt_witness :
    mnemonicToEntropy (fun _ => 0) (fun _ => none) ['z', 'z', 'z'] = none ∧
    loadImport (fun _ => 0) (fun _ => none) (fun _ => .missing) ['z', 'z', 'z']
      = loadImportFile (fun _ => .missing) ['z', 'z', 'z'] :=
  ⟨by decide,
   (C5_terminal_file_attempt (fun _ => 0) (fun _ => none) (fun _ => .missing)
      ['z', 'z', 'z'] (fun b hb => by simp [bytesFromHex] at hb) (by decide)).1⟩

/-!
## Claim C10 — precedence of the explicit starting block in `import`
-/

/-- **C10.** In `import`, an explicit `--block` is passed unchanged and
any block decoded from a recovery file is ignored; the decoded block is
used only when no explicit block was given; and the hex and mnemonic
forms never supply a block, so with no explicit block those imports
pass no starting block at all. -/
theorem C10_import_block_choice :
    (∀ (cs : List ℕ → ℕ) (wi : PyStr → Option ℕ) (fs : FileSys) (seed : PyStr)
      (eb : Option Json) (entropy : Json) (blk : Option Json),
      loadImport cs wi fs seed = .ok (entropy, blk) →
      importCmd cs wi fs seed eb = .ok (entropy, if eb.isNone then blk else eb)) ∧
    (∀ (cs : List ℕ → ℕ) (wi : PyStr → Option ℕ) (fs : FileSys) (seed : PyStr)
      (b : List ℕ), bytesFromHex seed = some b → b.length = 32 →
      importCmd cs wi fs seed none = .ok (.str (bytesToHex b), none)) ∧
    (∀ (cs : List ℕ → ℕ) (wi : PyStr → Option ℕ) (fs : FileSys) (seed : PyStr)
      (e : List ℕ), (∀ b, bytesFromHex seed = some b → b.length ≠ 32) →
      mnemonicToEntropy cs wi seed = some e →
      importCmd cs wi fs seed none = .ok (.str (bytesToHex e), none)) := by
  refine ⟨?_, ?_, ?_⟩
  · intro cs wi fs seed eb entropy blk h
    rw [importCmd, h]
    cases eb with
    | none =>
      cases blk with
      | none => simp
      | some j => simp
    | some j => simp
  · intro cs wi fs seed b hb hlen
    rw [importCmd, loadImport, hb]
    simp only [if_pos hlen]
    simp
  · intro cs wi fs seed e h1 h2
    rw [importCmd, loadImport_hex_fallthrough cs wi fs seed h1, loadImportRest, h2]
    simp

/-- Witness for C10: an explicit block `7` wins over a recovery file
carrying block `3`; a hex import with no explicit block passes no
block. -/
theorem C10_import_block_choice_witness :
    (loadImport (fun _ => 0) (fun _ => none)
        (fun _ => .parsed (.obj [(rootEntropyKey, .str ['0']), (firstBlockKey, .num 3)]))
        ['q'] = .ok (.str ['0'], some (.num 3)) ∧
      importCmd (fun _ => 0) (fun _ => none)
        (fun _ => .parsed (.obj [(rootEntropyKey, .str ['0']), (firstBlockKey, .num 3)]))
        ['q'] (some (.num 7)) = .ok (.str ['0'], some (.num 7))) ∧
    importCmd (fun _ => 0) (fun _ => none) (fun _ => .missing)
        (List.replicate 64 'a') none
      = .ok (.str (bytesToHex (hexPairs (List.replicate 64 'a'))), none) := by
  refine ⟨⟨?_, ?_⟩, ?_⟩
  · rfl
  · exact C10_import_block_choice.1 (fun _ => 0) (fun _ => none)
      (fun _ => .parsed (.obj [(rootEntropyKey, .str ['0']), (firstBlockKey, .num 3)]))
      ['q'] (some (.num 7)) (.str ['0']) (some (.num 3)) rfl
  · exact C10_import_block_choice.2.1 (fun _ => 0) (fun _ => none) (fun _ => .missing)
      (List.replicate 64 'a') (hexPairs (List.replicate 64 'a'))
      (by decide) (by decide)

/-! ## Supporting lemmas: association-list lookup -/

theorem find?_key_of_mem (accounts : List (PyStr × Account)) (i : PyStr)
    (a : Account) (hmem : (i, a) ∈ accounts)
    (hnd : (accounts.map Prod.fst).Nodup) :
    accounts.find? (fun p => p.1 == i) = some (i, a) := by
  induction accounts with
  | nil => cases hmem
  | cons p rest ih =>
    rw [List.map_cons, List.nodup_cons] at hnd
    rcases List.mem_cons.mp hmem with he | hr
    · subst he
      exact List.find?_cons_of_pos _ (by simp)
    · have hpi : (p.1 == i) = false := by
        rw [beq_eq_false_iff_ne]
        intro e
        apply hnd.1
        rw [e]
        exact List.mem_map_of_mem Prod.fst hr
      rw [List.find?_cons_of_neg _ (by simp [hpi]), ih hr hnd.2]

/-! ## Concrete values shared by the witnesses -/

def acctW : Account := ⟨"abc123".toList, "alice".toList, "addr1".toList, .num 2⟩

def acctX : Account := ⟨"abcxyz".toList, "bob".toList, "addr2".toList, .num 5⟩

def balOffline : Balance := ⟨5, 3, 0, 9, false⟩

def balOnline : Balance := ⟨5, 3, 7, 9, true⟩

/-!
## Claim C8 — account resolution by identifier leading substring
-/

/-- **C8.** The resolver on a user-supplied leading substring: zero
matching account ids is the not-found failure; exactly one match returns
the account stored under that id; two or more matches is the ambiguous
failure reporting the full match list, and that list holds exactly the
ids the given string leads. -/
theorem C8_resolve (accounts : List (PyStr × Account)) (pre : PyStr) :
    (((accounts.map Prod.fst).filter fun i => startsWithPy pre i) = [] →
      resolveAccount accounts pre = .notFound) ∧
    (∀ i a, ((accounts.map Prod.fst).filter fun j => startsWithPy pre j) = [i] →
      (i, a) ∈ accounts → (accounts.map Prod.fst).Nodup →
      resolveAccount accounts pre = .found a) ∧
    (2 ≤ ((accounts.map Prod.fst).filter fun i => startsWithPy pre i).length →
      resolveAccount accounts pre
        = .ambiguous ((accounts.map Prod.fst).filter fun i => startsWithPy pre i)) ∧
    (∀ i ∈ accounts.map Prod.fst, (startsWithPy pre i = true ↔
      i ∈ (accounts.map Prod.fst).filter fun j => startsWithPy pre j)) := by
  refine ⟨?_, ?_, ?_, ?_⟩
  · intro h
    simp only [resolveAccount, h]
  · intro i a h hmem hnd
    simp only [resolveAccount, h, find?_key_of_mem accounts i a hmem hnd]
  · intro h2
    cases hm : (accounts.map Prod.fst).filter fun i => startsWithPy pre i with
    | nil => rw [hm] at h2; simp at h2
    | cons x rest =>
      cases rest with
      | nil => rw [hm] at h2; simp at h2
      | cons y t =>
        simp only [resolveAccount, hm]
  · intro i hi
    constructor
    · intro hs
      exact List.mem_filter.mpr ⟨hi, hs⟩
    · intro hm
      exact (List.mem_filter.mp hm).2

/-- Witness for C8 at the spec's own example: accounts `abc123` and
`abcxyz`; the string `abc` is ambiguous listing both, `abc1` resolves to
the first account, `zzz` is not found. -/
theorem C8_resolve_witness :
    resolveAccount
        [("abc123".toList, acctW), ("abcxyz".toList, acctX)] "abc".toList
      = .ambiguous ["abc123".toList, "abcxyz".toList] ∧
    resolveAccount
        [("abc123".toList, acctW), ("abcxyz".toList, acctX)] "abc1".toList
      = .found acctW ∧
    resolveAccount
        [("abc123".toList, acctW), ("abcxyz".toList, acctX)] "zzz".toList
      = .notFound :=
  ⟨(C8_resolve [("abc123".toList, acctW), ("abcxyz".toList, acctX)]
      "abc".toList).2.2.1 (by decide),
   (C8_resolve [("abc123".toList, acctW), ("abcxyz".toList, acctX)]
      "abc1".toList).2.1 "abc123".toList acctW (by decide) (by simp)
      (by decide),
   (C8_resolve [("abc123".toList, acctW), ("abcxyz".toList, acctX)]
      "zzz".toList).1 (by decide)⟩

/-!
## Claim C9 — offline substitution of the total block count
-/

/-- **C9.** Wherever a balance's total is computed or displayed
(`_print_account`, and the per-account computation inside `list`): a
network block index of exactly zero marks the account offline and
substitutes the local block index as the total, and a nonzero network
block index is used as the total itself; and the `list` command displays
every account through `_print_account`. -/
theorem C9_offline_substitution (account : Account) (balance : Balance) :
    ((balance.network_block_index = 0 →
        (printAccount account balance).total_blocks = balance.local_block_index ∧
        (printAccount account balance).offline = true ∧
        listTotalBlocks balance = balance.local_block_index) ∧
      (balance.network_block_index ≠ 0 →
        (printAccount account balance).total_blocks = balance.network_block_index ∧
        (printAccount account balance).offline = false ∧
        listTotalBlocks balance = balance.network_block_index)) ∧
    (∀ (accounts : List (PyStr × Account)) (balanceOf : PyStr → Balance),
      listCmd accounts balanceOf
        = accounts.map fun p => printAccount p.2 (balanceOf p.1)) := by
  refine ⟨⟨?_, ?_⟩, ?_⟩
  · intro h
    refine ⟨?_, ?_, ?_⟩ <;> simp [printAccount, listTotalBlocks, h]
  · intro h
    refine ⟨?_, ?_, ?_⟩ <;> simp [printAccount, listTotalBlocks, h]
  · intro accounts balanceOf
    rfl

/-- Witness for C9: with a zero network index the displayed total is the
local index 9 and the offline flag is set; with network index 7 the
displayed total is 7 and the flag is clear. -/
theorem C9_offline_substitution_witness :
    ((printAccount acctW balOffline).total_blocks = 9 ∧
      (printAccount acctW balOffline).offline = true) ∧
    ((printAccount acctW balOnline).total_blocks = 7 ∧
      (printAccount acctW balOnline).offline = false) :=
  ⟨⟨((C9_offline_substitution acctW balOffline).1.1 rfl).1,
    ((C9_offline_substitution acctW balOffline).1.1 rfl).2.1⟩,
   ⟨((C9_offline_substitution acctW balOnline).1.2 (by decide)).1,
    ((C9_offline_substitution acctW balOnline).1.2 (by decide)).2.1⟩⟩

/-!
## Claim C1 — interactive confirmation before the destructive RPC calls
-/

def balEmpty : Balance := ⟨0, 4, 4, 4, true⟩

def balRich : Balance := ⟨1000000000000, 4, 4, 4, true⟩

/-- **C1 counterexample.** The claim says every delete and send issues
its RPC only after explicit interactive confirmation, and that a decline
is a normal (non-error) aborted path. Both parts fail concretely. On a
synced account with zero unspent balance, `delete` never prompts: with
the answer `n` — which `confirm` would reject — the `remove_account` RPC
is issued anyway. And `send` never reaches its prompt at all: its
two-argument `'\n'.join` raises `TypeError` first, so with the same
declining answer the outcome is the propagated error, not the claim's
normal aborted path. -/
theorem C1_confirmation_counterexample :
    (deleteCmd acctW balEmpty ['n'] = ([.removeAccount acctW.account_id], .ok) ∧
      confirm ['n'] = false) ∧
    (sendCmd acctW 1 ['x'] ['n'] = ([], .error .typeError) ∧
      Outcome.error .typeError ≠ .cancelled) := by
  refine ⟨⟨?_, by decide⟩, ⟨rfl, by decide⟩⟩
  rw [deleteCmd, if_pos (⟨rfl, pmob2mob_zero⟩ :
    balEmpty.is_synced = true ∧ pmob2mob balEmpty.unspent_pmob = 0)]

/-- **C1 as amended.** Export issues its RPC call only after an
affirmative answer at the confirmation prompt, and a decline is the
normal cancelled path with no RPC call; delete behaves the same way
except on a synced account whose unspent balance converts to zero MOB,
which it deletes at once without prompting; and send never reaches its
confirmation prompt at all — the two-argument `'\n'.join` of its message
raises `TypeError` unconditionally — so send issues no RPC call and
every invocation, whatever the answer, aborts with that propagated
error. -/
theorem C1_confirmation_gates (account : Account) (balance : Balance)
    (amount : ℚ) (to_address answer : PyStr) :
    (confirm answer = false → exportCmd account answer = ([], .cancelled)) ∧
    (confirm answer = false →
      ¬(balance.is_synced = true ∧ pmob2mob balance.unspent_pmob = 0) →
      deleteCmd account balance answer = ([], .cancelled)) ∧
    (confirm answer = true →
      exportCmd account answer = ([.exportAccountSecrets account.account_id], .ok)) ∧
    (confirm answer = true →
      deleteCmd account balance answer = ([.removeAccount account.account_id], .ok)) ∧
    (balance.is_synced = true ∧ pmob2mob balance.unspent_pmob = 0 →
      deleteCmd account balance answer = ([.removeAccount account.account_id], .ok)) ∧
    sendCmd account amount to_address answer = ([], .error .typeError) := by
  refine ⟨?_, ?_, ?_, ?_, ?_, rfl⟩
  · intro h
    rw [exportCmd, if_neg (by simp [h])]
  · intro h hz
    rw [deleteCmd, if_neg hz, if_neg (by simp [h])]
  · intro h
    rw [exportCmd, if_pos h]
  · intro h
    rw [deleteCmd]
    by_cases hz : balance.is_synced = true ∧ pmob2mob balance.unspent_pmob = 0
    · rw [if_pos hz]
    · rw [if_neg hz, if_pos h]
  · intro hz
    rw [deleteCmd, if_pos hz]

/-- Witness for C1 as amended: declining with `n` cancels export and
delete (on a funded account) without any RPC call, answering `y` issues
the export RPC, and a send invocation aborts with the propagated
`TypeError` and no RPC call. -/
theorem C1_confirmation_gates_witness :
    confirm ['n'] = false ∧
    exportCmd acctW ['n'] = ([], .cancelled) ∧
    deleteCmd acctW balRich ['n'] = ([], .cancelled) ∧
    exportCmd acctW ['y'] = ([.exportAccountSecrets acctW.account_id], .ok) ∧
    sendCmd acctW 1 ['x'] ['y'] = ([], .error .typeError) :=
  ⟨by decide,
   (C1_confirmation_gates acctW balRich 0 [] ['n']).1 (by decide),
   (C1_confirmation_gates acctW balRich 0 [] ['n']).2.1 (by decide)
     (by
       rintro ⟨-, h⟩
       rw [pmob2mob_eq_zero_iff] at h
       simp [balRich] at h),
   (C1_confirmation_gates acctW balRich 0 [] ['y']).2.2.1 (by decide),
   (C1_confirmation_gates acctW balRich 1 ['x'] ['y']).2.2.2.2.2⟩

/-!
## Claim C3 — a send reports success only after syncing past the
submitted block
-/

/-- Soundness of the sync poller's target mode: a successful poll returns
a balance whose account-local synced index has reached the target. -/
theorem waitForSync_sound (fetch : ℕ → Balance) (target : ℕ) :
    ∀ (fuel attempt : ℕ) (bal : Balance),
      waitForSync fetch target attempt fuel = some bal →
      target ≤ bal.account_block_index := by
  intro fuel
  induction fuel with
  | zero =>
    intro attempt bal h
    exact absurd h (by rw [waitForSync]; simp)
  | succ fuel ih =>
    intro attempt bal h
    rw [waitForSync] at h
    split at h
    · next hc => exact (Option.some_inj.mp h) ▸ hc
    · exact ih _ _ h

/-- **C3.** After a submit returning block index `b`, the flow reports
success only with a balance whose account-local synced index is at least
`b + 1`; it never reports success while that index is still at or below
`b` — in particular not when the network index merely reports `b`. -/
theorem C3_send_confirm_waits (submitted fuel : ℕ) (fetch : ℕ → Balance)
    (b : ℕ) (bal : Balance)
    (h : sendAndConfirm submitted fetch fuel = some (b, bal)) :
    b = submitted ∧ submitted + 1 ≤ bal.account_block_index ∧
      ¬bal.account_block_index ≤ submitted := by
  rw [sendAndConfirm] at h
  cases hw : waitForSync fetch (submitted + 1) 0 fuel with
  | none => rw [hw] at h; cases h
  | some bal2 =>
    rw [hw] at h
    simp only [Option.some.injEq, Prod.mk.injEq] at h
    obtain ⟨h1, h2⟩ := h
    subst h2
    have hs := waitForSync_sound fetch (submitted + 1) fuel 0 bal2 hw
    exact ⟨h1.symm, hs, by omega⟩

/-- Witness for C3: a submit at block 10, polled against balances whose
account index grows one per attempt while the network index stays at 10,
succeeds exactly with the balance synced to 11. -/
theorem C3_send_confirm_waits_witness :
    sendAndConfirm 10 (fun n => ⟨0, n, 10, 10, false⟩) 12
        = some (10, ⟨0, 11, 10, 10, false⟩) ∧
    (10 + 1 ≤ (⟨0, 11, 10, 10, false⟩ : Balance).account_block_index ∧
      ¬(⟨0, 11, 10, 10, false⟩ : Balance).account_block_index ≤ 10) := by
  have hEval : sendAndConfirm 10 (fun n => ⟨0, n, 10, 10, false⟩) 12
      = some (10, ⟨0, 11, 10, 10, false⟩) := by decide
  exact ⟨hEval,
    (C3_send_confirm_waits 10 12 (fun n => ⟨0, n, 10, 10, false⟩) 10
      ⟨0, 11, 10, 10, false⟩ hEval).2⟩

/-!
## Claim C2 — exactness of the amount conversion path
-/

theorem sendParsedAmount_tenth_eval :
    sendParsedAmount 1 10 = (7205759403792794 : ℚ) * 2 ^ 0 / 2 ^ 56 := by
  have h1 : binScaleN 4400 1 10 0 0 = (72057594037927936, 10, 56, 0) := by decide
  have h2 : halfEvenDivN 72057594037927936 10 = 7205759403792794 := by decide
  rw [sendParsedAmount, pyFloatFrac, if_neg (by norm_num)]
  simp only [h1, h2]
  norm_num

theorem sendParsedAmount_tenth_ne : sendParsedAmount 1 10 ≠ 1 / 10 := by
  rw [sendParsedAmount_tenth_eval]
  norm_num

theorem sendParsedAmount_drift_eval :
    mob2pmob (sendParsedAmount 9000000000000001 1000000000000)
      = 9000000000000002 := by
  have h1 : binScaleN 4400 9000000000000001 1000000000000 0 0
      = (4947802324992000549755813888, 1000000000000, 39, 0) := by decide
  have h2 : halfEvenDivN 4947802324992000549755813888 1000000000000
      = 4947802324992001 := by decide
  rw [sendParsedAmount, pyFloatFrac, if_neg (by norm_num)]
  simp only [h1, h2]
  rw [mob2pmob, round_eq, Int.floor_eq_iff]
  constructor <;> norm_num

/-- **C2 counterexample.** The claim says no binary floating point sits
anywhere on the path from the user-supplied amount to the submitted
smallest-unit value. But argparse parses the `send` amount with
`type=float` before `Decimal` ever sees it: the user's exact decimal
`0.1` arrives as the binary double `7205759403792794 / 2^56 ≠ 1/10`, and
for the 12-fractional-digit amount `9000.000000000001` the smallest-unit
value obtained from the parsed double is `9000000000000002` pmob — one
unit away from the exact `9000000000000001`. -/
theorem C2_float_counterexample :
    sendParsedAmount 1 10 ≠ 1 / 10 ∧
    mob2pmob (sendParsedAmount 9000000000000001 1000000000000)
      ≠ 9000000000000001 := by
  refine ⟨sendParsedAmount_tenth_ne, ?_⟩
  rw [sendParsedAmount_drift_eval]
  norm_num

/-- **C2 as amended.** The conversion between the display unit and the
smallest unit itself is exact at the fixed scale of 10^12, with
`toSmallestUnit (toDisplay n) = n` for every natural `n` and
`toDisplay 100000000000 = 0.1`; but the send path first parses the
user-supplied amount with binary floating point (argparse `type=float`),
so the value reaching the conversion can differ from the typed decimal —
`0.1` arrives as a double unequal to `1/10`, and `9000.000000000001`
submits `9000000000000002` smallest units. -/
theorem C2_amount_conversion :
    (∀ n : ℕ, mob2pmob (pmob2mob n) = n) ∧
    pmob2mob 100000000000 = 1 / 10 ∧
    sendParsedAmount 1 10 ≠ 1 / 10 ∧
    mob2pmob (sendParsedAmount 9000000000000001 1000000000000)
      = 9000000000000002 := by
  refine ⟨?_, ?_, sendParsedAmount_tenth_ne, sendParsedAmount_drift_eval⟩
  · intro n
    rw [mob2pmob, pmob2mob, div_mul_cancel₀ _ (by norm_num : ((10 : ℚ) ^ 12) ≠ 0),
      round_natCast]
  · rw [pmob2mob]
    norm_num

/-!
## Claim C6 — mnemonic encode/decode round trip on 32-byte secrets
-/

/-- **C6.** For every 32-byte secret, encoding it as a mnemonic phrase
and feeding the phrase to `_load_import` recovers exactly that secret
(returned, as the source does, as its lowercase hex), with no starting
block; the hex attempt always falls through on a phrase — 24 wordlist
words carry at least 72 non-space characters, so they can never decode to
exactly 32 bytes — and the mnemonic branch validates. The wordlist
hypotheses are the facts true of the fixed English wordlist: word lookup
inverts word selection, and words are space-free with at least 3 letters;
the checksum function `cs` is arbitrary, so the statement holds in
particular for the SHA-256 checksum of BIP39. -/
theorem C6_mnemonic_roundtrip (cs : List ℕ → ℕ) (wl : ℕ → PyStr)
    (wi : PyStr → Option ℕ)
    (hinv : ∀ i < 2048, wi (wl i) = some i)
    (hsp : ∀ i < 2048, ' ' ∉ wl i)
    (hlen3 : ∀ i < 2048, 3 ≤ (wl i).length)
    (fs : FileSys) (s : List ℕ) (hs : s.length = 32) (hb : ∀ x ∈ s, x < 256) :
    mnemonicToEntropy cs wi (toMnemonic cs wl s) = some s ∧
    loadImport cs wi fs (toMnemonic cs wl s) = .ok (.str (bytesToHex s), none) := by
  have htm : toMnemonic cs wl s
      = joinSpace ((natToDigits 2048 24
          (digitsToNat 256 s * 256 + cs s % 256)).map wl) := by
    rw [toMnemonic, hs]
    norm_num
  have hidx : ∀ i ∈ natToDigits 2048 24 (digitsToNat 256 s * 256 + cs s % 256),
      i < 2048 :=
    natToDigits_lt 2048 24 _ (by norm_num)
  have hws_len : ((natToDigits 2048 24
      (digitsToNat 256 s * 256 + cs s % 256)).map wl).length = 24 := by
    rw [List.length_map, natToDigits_length]
  have hws_sp : ∀ w ∈ (natToDigits 2048 24
      (digitsToNat 256 s * 256 + cs s % 256)).map wl, ' ' ∉ w := by
    intro w hw
    rcases List.mem_map.mp hw with ⟨i, hi, rfl⟩
    exact hsp i (hidx i hi)
  have hsplit : splitOnSpace (joinSpace ((natToDigits 2048 24
      (digitsToNat 256 s * 256 + cs s % 256)).map wl))
      = (natToDigits 2048 24 (digitsToNat 256 s * 256 + cs s % 256)).map wl :=
    splitOnSpace_joinSpace _ (by rw [← List.length_pos_iff_ne_nil, hws_len]; norm_num)
      hws_sp
  have hmapM : optMapM wi ((natToDigits 2048 24
      (digitsToNat 256 s * 256 + cs s % 256)).map wl)
      = some (natToDigits 2048 24 (digitsToNat 256 s * 256 + cs s % 256)) :=
    optMapM_map_of_inv wi wl _ fun i hi => hinv i (hidx i hi)
  have hcslt : cs s % 256 < 256 := Nat.mod_lt _ (by norm_num)
  have hNlt : digitsToNat 256 s * 256 + cs s % 256 < 2048 ^ 24 := by
    have h1 : digitsToNat 256 s < 256 ^ 32 := hs ▸ digitsToNat_lt 256 s hb
    have h2 : (2048 : ℕ) ^ 24 = 256 ^ 32 * 256 := by norm_num
    calc digitsToNat 256 s * 256 + cs s % 256
        < digitsToNat 256 s * 256 + 256 := Nat.add_lt_add_left hcslt _
    _ = (digitsToNat 256 s + 1) * 256 := by ring
    _ ≤ 256 ^ 32 * 256 := Nat.mul_le_mul_right _ h1
    _ = 2048 ^ 24 := h2.symm
  have hN' : digitsToNat 2048 (natToDigits 2048 24
      (digitsToNat 256 s * 256 + cs s % 256))
      = digitsToNat 256 s * 256 + cs s % 256 := by
    rw [digitsToNat_natToDigits]
    exact Nat.mod_eq_of_lt hNlt
  have hdiv : (digitsToNat 256 s * 256 + cs s % 256) / 256
      = digitsToNat 256 s := by
    rw [Nat.mul_comm, Nat.mul_add_div (by norm_num), Nat.div_eq_of_lt hcslt,
      Nat.add_zero]
  have hmod : (digitsToNat 256 s * 256 + cs s % 256) % 256
      = cs s % 256 := by
    rw [Nat.mul_comm, Nat.mul_add_mod, Nat.mod_eq_of_lt hcslt]
  have hent : natToDigits 256 32 (digitsToNat 256 s) = s := by
    rw [show (32 : ℕ) = s.length from hs.symm]
    exact natToDigits_digitsToNat 256 (by norm_num) s hb
  have hdec : mnemonicToEntropy cs wi (toMnemonic cs wl s) = some s := by
    rw [htm, mnemonicToEntropy]
    simp only [hsplit, hws_len, hmapM]
    norm_num
    have he' : natToDigits 256 32 (digitsToNat 2048 (natToDigits 2048 24
        (digitsToNat 256 s * 256 + cs s % 256)) / 256) = s := by
      rw [hN', hdiv, hent]
    refine ⟨?_, he'⟩
    rw [he', hN', hmod]
  refine ⟨hdec, ?_⟩
  have hflat : (joinSpace ((natToDigits 2048 24
      (digitsToNat 256 s * 256 + cs s % 256)).map wl)).filter
        (fun c => !(c == ' '))
      = ((natToDigits 2048 24
          (digitsToNat 256 s * 256 + cs s % 256)).map wl).flatten :=
    filter_joinSpace _ hws_sp
  have hlen72 : 72 ≤ ((natToDigits 2048 24
      (digitsToNat 256 s * 256 + cs s % 256)).map wl).flatten.length := by
    have h3 := flatten_length_ge ((natToDigits 2048 24
        (digitsToNat 256 s * 256 + cs s % 256)).map wl) ?_
    · rw [hws_len] at h3
      omega
    · intro w hw
      rcases List.mem_map.mp hw with ⟨i, hi, rfl⟩
      exact hlen3 i (hidx i hi)
  have hfall : loadImport cs wi fs (toMnemonic cs wl s)
      = loadImportRest cs wi fs (toMnemonic cs wl s) := by
    apply loadImport_hex_fallthrough
    intro b hbx
    rw [htm] at hbx
    have hb' := bytesFromHex_some _ b hbx
    rw [hflat] at hb'
    rw [hb', hexPairs_length]
    omega
  rw [hfall, loadImportRest, hdec]

/-- Witness for C6: a concrete wordlist — word `i` is `i + 3` letters
`a` — satisfying the inverse, space-freeness and length hypotheses, the
zero checksum function, and the all-zero 32-byte secret. -/
theorem C6_mnemonic_roundtrip_witness :
    (∀ i < 2048,
      (fun w : PyStr => if 3 ≤ w.length ∧ w.all (· == 'a')
        then some (w.length - 3) else none)
        ((fun i => List.replicate (i + 3) 'a') i) = some i) ∧
    (List.replicate 32 0).length = 32 ∧
    mnemonicToEntropy (fun _ => 0)
        (fun w : PyStr => if 3 ≤ w.length ∧ w.all (· == 'a')
          then some (w.length - 3) else none)
        (toMnemonic (fun _ => 0) (fun i => List.replicate (i + 3) 'a')
          (List.replicate 32 0))
      = some (List.replicate 32 0) := by
  have hinv : ∀ i < 2048,
      (fun w : PyStr => if 3 ≤ w.length ∧ w.all (· == 'a')
        then some (w.length - 3) else none)
        ((fun i => List.replicate (i + 3) 'a') i) = some i := by
    intro i _
    simp [List.all_eq_true]
  refine ⟨hinv, by simp, ?_⟩
  exact (C6_mnemonic_roundtrip (fun _ => 0) (fun i => List.replicate (i + 3) 'a')
    (fun w : PyStr => if 3 ≤ w.length ∧ w.all (· == 'a')
      then some (w.length - 3) else none)
    hinv
    (fun i _ => by simp)
    (fun i _ => by simp)
    (fun _ => .missing) (List.replicate 32 0) (by simp) (by simp)).1

/-!
## Claim C7 — the export file and its re-import
-/

theorem mnemonicToEntropy_single_word (cs : List ℕ → ℕ) (wi : PyStr → Option ℕ)
    (s : PyStr) (h : ' ' ∉ s) : mnemonicToEntropy cs wi s = none := by
  rw [mnemonicToEntropy, splitOnSpace_no_space s h]
  simp only [List.length_singleton]
  rw [if_neg (by decide)]

theorem jsonLookup_cons_ne (k k' : PyStr) (v : Json) (rest : List (PyStr × Json))
    (h : (k == k') = false) : jsonLookup ((k, v) :: rest) k' = jsonLookup rest k' := by
  rw [jsonLookup, jsonLookup, List.find?_cons_of_neg]
  simp [h]

theorem jsonLookup_cons_eq (k : PyStr) (v : Json) (rest : List (PyStr × Json)) :
    jsonLookup ((k, v) :: rest) k = some v := by
  rw [jsonLookup, List.find?_cons_of_pos]
  · rfl
  · simp

/-- **C7.** The export file holds exactly the six fields `seed_phrase`,
`root_entropy`, `account_id`, `account_name`, `account_key` and
`first_block_index`; and feeding the written file's path back into
`_load_import` reaches the recovery-file branch (the generated file name
is neither hex — it starts with `m` — nor, holding no space, a mnemonic)
and returns the very `root_entropy` and `first_block_index` that were
written. -/
theorem C7_export_import_roundtrip (cs : List ℕ → ℕ) (wl : ℕ → PyStr)
    (wi : PyStr → Option ℕ) (fs : FileSys) (account : Account)
    (secrets : Secrets) (r : List (PyStr × Json))
    (hr : saveExport cs wl account secrets = .ok r)
    (hfs : fs (exportFilename account.account_id) = .parsed (.obj r))
    (hid : ' ' ∉ account.account_id.take 16) :
    r.map Prod.fst = [seedPhraseKey, rootEntropyKey, accountIdKey,
      accountNameKey, accountKeyKey, firstBlockKey] ∧
    loadImport cs wi fs (exportFilename account.account_id)
      = .ok (.str secrets.entropy, some account.first_block_index) := by
  rw [saveExport] at hr
  cases hbe : bytesFromHex secrets.entropy with
  | none => rw [hbe] at hr; cases hr
  | some b =>
    rw [hbe] at hr
    have hrv : [(seedPhraseKey, Json.str (toMnemonic cs wl b)),
        (rootEntropyKey, .str secrets.entropy),
        (accountIdKey, .str account.account_id),
        (accountNameKey, .str account.name),
        (accountKeyKey, secrets.account_key),
        (firstBlockKey, account.first_block_index)] = r := Except.ok.inj hr
    subst hrv
    refine ⟨rfl, ?_⟩
    have hm : bytesFromHex (exportFilename account.account_id) = none := by
      apply bytesFromHex_none_of_bad _ 'm'
      · rw [exportFilename]
        exact List.mem_append.mpr (.inl (List.mem_append.mpr (.inl (by decide))))
      · decide
      · decide
    have hnospace : ' ' ∉ exportFilename account.account_id := by
      rw [exportFilename]
      intro hmem
      rcases List.mem_append.mp hmem with h1 | h2
      · rcases List.mem_append.mp h1 with h1a | h1b
        · exact absurd h1a (by decide)
        · exact hid h1b
      · exact absurd h2 (by decide)
    have hmn : mnemonicToEntropy cs wi (exportFilename account.account_id) = none :=
      mnemonicToEntropy_single_word cs wi _ hnospace
    have hl1 : jsonLookup [(seedPhraseKey, Json.str (toMnemonic cs wl b)),
        (rootEntropyKey, .str secrets.entropy),
        (accountIdKey, .str account.account_id),
        (accountNameKey, .str account.name),
        (accountKeyKey, secrets.account_key),
        (firstBlockKey, account.first_block_index)] rootEntropyKey
        = some (.str secrets.entropy) := by
      rw [jsonLookup_cons_ne _ _ _ _ (by decide), jsonLookup_cons_eq]
    have hl2 : jsonLookup [(seedPhraseKey, Json.str (toMnemonic cs wl b)),
        (rootEntropyKey, .str secrets.entropy),
        (accountIdKey, .str account.account_id),
        (accountNameKey, .str account.name),
        (accountKeyKey, secrets.account_key),
        (firstBlockKey, account.first_block_index)] firstBlockKey
        = some account.first_block_index := by
      rw [jsonLookup_cons_ne _ _ _ _ (by decide), jsonLookup_cons_ne _ _ _ _ (by decide),
        jsonLookup_cons_ne _ _ _ _ (by decide), jsonLookup_cons_ne _ _ _ _ (by decide),
        jsonLookup_cons_ne _ _ _ _ (by decide), jsonLookup_cons_eq]
    simp only [loadImport, hm, loadImportRest, hmn, loadImportFile, hfs, hl1, hl2]

/-- Concrete export scenario used by the C7 witness. -/
def idW : PyStr := "abcdefabcdef".toList

def acctE : Account := ⟨idW, "n".toList, "a".toList, .num 4⟩

def secretsW : Secrets := ⟨List.replicate 64 '0', .num 9⟩

def rW : List (PyStr × Json) :=
  [(seedPhraseKey, .str (toMnemonic (fun _ => 0) (fun i => List.replicate (i + 3) 'a')
      (hexPairs ((List.replicate 64 '0').filter fun c => !(c == ' '))))),
   (rootEntropyKey, .str (List.replicate 64 '0')),
   (accountIdKey, .str idW),
   (accountNameKey, .str "n".toList),
   (accountKeyKey, .num 9),
   (firstBlockKey, .num 4)]

def fsW : FileSys := fun p =>
  if p == exportFilename idW then .parsed (.obj rW) else .missing

/-- Witness for C7: a concrete account and secrets, the record written by
the export path stored at the export file name, and the re-import
recovering the written entropy and first block index. -/
theorem C7_export_import_roundtrip_witness :
    rW.map Prod.fst = [seedPhraseKey, rootEntropyKey, accountIdKey,
      accountNameKey, accountKeyKey, firstBlockKey] ∧
    loadImport (fun _ => 0) (fun _ => none) fsW (exportFilename idW)
      = .ok (.str secretsW.entropy, some acctE.first_block_index) := by
  have h := C7_export_import_roundtrip (fun _ => 0)
    (fun i => List.replicate (i + 3) 'a') (fun _ => none) fsW acctE secretsW rW
    rfl rfl (by decide)
  exact ⟨h.1, h.2⟩

end MCCli
